import Mathlib

/-!
Verification of the ReelDeal movie recommender core.

The embedding follows the repository sources:
* `src/app.py` — `recommend(movie, movies_df, index, k)`: title lookup in the
  data frame, `index.reconstruct`, `index.search(q, k+1)`, the slice
  `indices[0][1:k+1]`, the result-building loop, and the enclosing
  `try/except` that turns any exception into `([], [])`.
* `src/data_updater.py` — `MovieDataUpdater`: `preprocess_data` (dropna,
  overview tokenisation, space-stripping, tag assembly, lower-casing,
  stemming) and `build_faiss_index` (CountVectorizer fit, float cast,
  L2 normalisation, `IndexFlatIP`).

The FAISS index operations (`search`, `reconstruct`, `normalize_L2`) and the
scikit-learn `CountVectorizer` are third-party components whose code is not
part of the repository; they are modelled from the specification's contracts
(§4.2, §4.3), with doc comments marking each such definition.

Scalars are idealised: `float32` values become `ℚ` (exact rationals) for the
corpus vectors and scores, and `ℝ` for the L2-normalised rows (whose norms
are irrational in general).
-/

namespace ReelDeal

/-- A feature vector: one `float32` entry per vocabulary column, idealised
as rationals. -/
abbrev Vec := List ℚ

/-- Inner product of two vectors (the `IndexFlatIP` metric). -/
def dot (v w : Vec) : ℚ := (List.zipWith (· * ·) v w).sum

/-- Squared Euclidean norm of a vector: the sum of squared entries. -/
def normSq (v : Vec) : ℚ := (v.map (fun x => x * x)).sum

/-- Modelled from the spec (§4.3): the FAISS `IndexFlatIP` built by
`build_faiss_index` stores the added vectors keyed by dense 0-based row
position; the FAISS implementation itself is not part of the repository. -/
structure FaissIndex where
  vecs : List Vec
deriving DecidableEq

/-- Modelled from the spec (§4.3): `reconstruct(i)` returns the stored vector
at position `i`, and fails with an out-of-range error if `i` is not a valid
position (in the app this surfaces as a raised exception). -/
def FaissIndex.reconstruct (idx : FaissIndex) (i : Nat) : Except String Vec :=
  match idx.vecs[i]? with
  | some v => Except.ok v
  | none => Except.error "reconstruct key out of range"

/-- Ordering on search hits `(row position, score)`: higher score first,
ties broken by ascending row position. -/
def hitLE (a b : Nat × ℚ) : Prop := b.2 < a.2 ∨ (a.2 = b.2 ∧ a.1 ≤ b.1)

instance : DecidableRel hitLE := fun a b => by
  unfold hitLE; exact inferInstanceAs (Decidable (_ ∨ _))

instance : IsTotal (Nat × ℚ) hitLE where
  total a b := by
    unfold hitLE
    rcases lt_trichotomy a.2 b.2 with h | h | h
    · exact Or.inr (Or.inl h)
    · rcases Nat.le_total a.1 b.1 with h1 | h1
      · exact Or.inl (Or.inr ⟨h, h1⟩)
      · exact Or.inr (Or.inr ⟨h.symm, h1⟩)
    · exact Or.inl (Or.inl h)

instance : IsTrans (Nat × ℚ) hitLE where
  trans a b c hab hbc := by
    unfold hitLE at *
    rcases hab with h1 | ⟨h1, h1b⟩
    · rcases hbc with h2 | ⟨h2, _⟩
      · exact Or.inl (h2.trans h1)
      · exact Or.inl (h2 ▸ h1)
    · rcases hbc with h2 | ⟨h2, h2b⟩
      · exact Or.inl (h1 ▸ h2)
      · exact Or.inr ⟨h1.trans h2, h1b.trans h2b⟩

/-- Modelled from the spec (§4.3): `search(q, k)` scores every stored vector
by inner product against `q` and returns the hits ordered by descending
score, ties broken by ascending row position, truncated to at most `k`
results.  Each hit is a `(row position, score)` pair. -/
def FaissIndex.search (idx : FaissIndex) (q : Vec) (k : Nat) : List (Nat × ℚ) :=
  (((idx.vecs.map (dot q)).enum).insertionSort hitLE).take k

/-- A row of the serving data frame `movies_df`: the per-movie metadata the
app keeps (`movie_id`, `title`). -/
structure Movie where
  movie_id : Nat
  title : String
deriving DecidableEq

/-- The state `recommend` reads: the `movies_df` rows in build order, the
FAISS index, and the external TMDb poster lookup (`fetch_poster`), which
returns a URL or `None`. -/
structure AppState where
  movies : List Movie
  index : FaissIndex
  posterOf : Nat → Option String

/-- `movies_df[movies_df['title'] == movie].index`: the row positions whose
title equals the query, in ascending order. -/
def findTitlePositions (movies : List Movie) (t : String) : List Nat :=
  ((movies.enum).filter (fun p => p.2.title == t)).map Prod.fst

/-- `movies_df.iloc[i]` for a non-negative position: the row at position
`i`, raising if `i` is out of bounds. -/
def iloc (movies : List Movie) (i : Nat) : Except String Movie :=
  match movies[i]? with
  | some m => Except.ok m
  | none => Except.error "single positional indexer is out-of-bounds"

/-- The result-building loop of `recommend` (src/app.py lines 130-135): for
each recommended row position, look the row up with `iloc`, append its title
and its fetched poster.  A lookup failure raises (propagates as an error). -/
def recLoop (st : AppState) : List Nat → Except String (List String × List (Option String))
  | [] => Except.ok ([], [])
  | i :: rest =>
    match iloc st.movies i with
    | Except.error e => Except.error e
    | Except.ok m =>
      match recLoop st rest with
      | Except.error e => Except.error e
      | Except.ok (ts, ps) => Except.ok (m.title :: ts, st.posterOf m.movie_id :: ps)

/-- The body of `recommend` (src/app.py lines 110-137) before the enclosing
`try/except`: resolve the title to its first matching row position (returning
`([], [])` if there is none), reconstruct that row's vector, search for the
`k+1` nearest neighbours, drop the first hit and keep the next `k`
(`indices[0][1:k+1]`), then build the title and poster lists. -/
def recommendCore (st : AppState) (movie : String) (k : Nat) :
    Except String (List String × List (Option String)) :=
  match findTitlePositions st.movies movie with
  | [] => Except.ok ([], [])
  | mi :: _ =>
    match st.index.reconstruct mi with
    | Except.error e => Except.error e
    | Except.ok q =>
      recLoop st ((((st.index.search q (k + 1)).map Prod.fst).drop 1).take k)

/-- `recommend` (src/app.py lines 107-141): the body above wrapped in
`try/except Exception` — any raised error is displayed and coerced to
`([], [])`. -/
def recommend (st : AppState) (movie : String) (k : Nat) :
    List String × List (Option String) :=
  match recommendCore st movie k with
  | Except.ok r => r
  | Except.error _ => ([], [])

/-- Concrete corpus with two distinct titles sharing an identical stored
vector (two movies with identical tag strings): rows 0 = "A", 1 = "B". -/
def st2 : AppState :=
  { movies := [⟨1, "A"⟩, ⟨2, "B"⟩]
    index := ⟨[[1, 0], [1, 0]]⟩
    posterOf := fun _ => none }

/-- The spec's §8 three-movie corpus: tag multisets A = (space, war),
B = (space, love), C = (desert, love) over the vocabulary
(space, war, love, desert), stored as count vectors (a positive rescaling
of each stored row, which does not affect any ordering or length claim). -/
def st3 : AppState :=
  { movies := [⟨1, "A"⟩, ⟨2, "B"⟩, ⟨3, "C"⟩]
    index := ⟨[[1, 1, 0, 0], [1, 0, 1, 0], [0, 0, 1, 1]]⟩
    posterOf := fun _ => none }

/-- Desynchronised serving state: two data-frame rows but a single-vector
index, so resolving "B" leads to an out-of-range `reconstruct`. -/
def stBad : AppState :=
  { movies := [⟨1, "A"⟩, ⟨2, "B"⟩]
    index := ⟨[[1, 0]]⟩
    posterOf := fun _ => none }

/-- A Python string of the text pipeline, embedded as its character list
(Lean's packed `String` operations do not evaluate in the kernel). -/
abbrev PyStr := List Char

/-- Helper for `splitWs`: accumulates the current token (reversed). -/
def splitWsAux : List Char → List Char → List PyStr
  | [], acc => if acc.isEmpty then [] else [acc.reverse]
  | c :: cs, acc =>
    if c.isWhitespace then
      if acc.isEmpty then splitWsAux cs [] else acc.reverse :: splitWsAux cs []
    else splitWsAux cs (c :: acc)

/-- Python's `str.split()` with no argument: split on whitespace runs,
dropping empty pieces. -/
def splitWs (s : PyStr) : List PyStr := splitWsAux s []

/-- A raw data-frame cell for the `overview` column: a string, a pandas null
(`NaN`/`None`), or some other non-string non-null value. -/
inductive FieldVal where
  | vstr (s : PyStr)
  | vnull
  | vnum (n : Int)
deriving DecidableEq

/-- A raw movie record as assembled by `fetch_movie_details`
(src/data_updater.py lines 104-112), with the `overview` cell kept raw so
that `preprocess_data`'s handling of malformed values can be stated. -/
structure RawMovie where
  movie_id : Nat
  title : String
  overview : FieldVal
  genres : List PyStr
  keywords : List PyStr
  cast : List PyStr
  crew : List PyStr
deriving DecidableEq

/-- A row of the processed data frame `df[['movie_id', 'title', 'tags']]`. -/
structure ProcessedMovie where
  movie_id : Nat
  title : String
  tags : PyStr
deriving DecidableEq

/-- `lambda x: x.split() if isinstance(x, str) else []`
(src/data_updater.py lines 133-134). -/
def overviewTokens : FieldVal → List PyStr
  | FieldVal.vstr s => splitWs s
  | _ => []

/-- `lambda x: [i.replace(" ", "") for i in x]`
(src/data_updater.py lines 137-144); replacing a one-character pattern by
the empty string deletes every occurrence of that character. -/
def stripSpaces (xs : List PyStr) : List PyStr :=
  xs.map (fun i => i.filter (fun c => !(c == ' ')))

/-- `" ".join(xs)`. -/
def joinSpaces (xs : List PyStr) : PyStr := List.intercalate [' '] xs

/-- `stem` (src/data_updater.py lines 159-164): split the text on
whitespace, apply the Porter stemmer to each token, and rejoin with single
spaces.  The stemmer itself is NLTK code outside the repository, so it is a
parameter `ps` here. -/
def stem (ps : PyStr → PyStr) (text : PyStr) : PyStr :=
  joinSpaces ((splitWs text).map ps)

/-- Tag construction for one surviving row (src/data_updater.py lines
133-154): overview tokens, then the space-stripped genres, keywords, cast
and crew, joined with single spaces, lower-cased, then stemmed. -/
def tagsOf (ps : PyStr → PyStr) (r : RawMovie) : PyStr :=
  stem ps
    ((joinSpaces
        (overviewTokens r.overview ++ stripSpaces r.genres ++
          stripSpaces r.keywords ++ stripSpaces r.cast ++
          stripSpaces r.crew)).map Char.toLower)

/-- `df.dropna()` membership test (src/data_updater.py line 129): a row is
dropped when any of its cells is null; in this model the only nullable cell
is `overview`. -/
def hasNull (r : RawMovie) : Bool := r.overview == FieldVal.vnull

/-- `preprocess_data` (src/data_updater.py lines 123-157): drop rows with
missing data, then build each remaining row's tag string. -/
def preprocess_data (ps : PyStr → PyStr) (rows : List RawMovie) :
    List ProcessedMovie :=
  (rows.filter (fun r => !(hasNull r))).map
    (fun r => ⟨r.movie_id, r.title, tagsOf ps r⟩)

/-- Modelled from the spec (§4.2): the "standard English stop-word list" of
the vectorizer (`stop_words='english'`, src/data_updater.py line 27); the
actual list lives in scikit-learn, outside the repository.  A representative
fixed list — all the claims need is that it is a fixed set of terms that the
fitted vocabulary excludes. -/
def englishStopWords : List PyStr :=
  (["a", "about", "an", "and", "are", "as", "at", "be", "but", "by", "for",
    "from", "had", "has", "have", "he", "her", "his", "if", "in", "into",
    "is", "it", "its", "no", "not", "of", "on", "or", "she", "such", "that",
    "the", "their", "then", "there", "these", "they", "this", "to", "was",
    "were", "will", "with"]).map String.data

/-- Modelled from the spec (§4.2): the distinct non-stop-word terms of one
document, in first-occurrence order. -/
def docTerms (doc : PyStr) : List PyStr :=
  ((splitWs doc).filter (fun t => !(englishStopWords.contains t))).dedup

/-- Modelled from the spec (§4.2): the document frequency of a term — the
number of documents containing it. -/
def docFreq (docs : List PyStr) (t : PyStr) : Nat :=
  (docs.filter (fun d => (docTerms d).contains t)).length

/-- Vocabulary candidate ordering: descending document frequency. -/
def dfGE (docs : List PyStr) (a b : PyStr) : Prop :=
  docFreq docs b ≤ docFreq docs a

instance (docs : List PyStr) : DecidableRel (dfGE docs) := fun a b => by
  unfold dfGE; exact inferInstanceAs (Decidable (_ ≤ _))

instance (docs : List PyStr) : IsTotal PyStr (dfGE docs) where
  total a b := Nat.le_total (docFreq docs b) (docFreq docs a)

instance (docs : List PyStr) : IsTrans PyStr (dfGE docs) where
  trans _ _ _ hab hbc := Nat.le_trans hbc hab

/-- Modelled from the spec (§4.2): `fit(tag_strings)` learns a vocabulary of
at most `maxFeatures` terms by descending document frequency after removing
the stop-word list.  The implementation is scikit-learn's `CountVectorizer`,
outside the repository; only its configuration (`max_features=5000`,
`stop_words='english'`) is repository code. -/
def fitVocabulary (maxFeatures : Nat) (docs : List PyStr) : List PyStr :=
  (((docs.map docTerms).flatten.dedup).insertionSort (dfGE docs)).take maxFeatures

/-- The vectorizer as configured in `MovieDataUpdater.__init__`
(src/data_updater.py line 27): `max_features=5000`. -/
def fitTags (docs : List PyStr) : List PyStr := fitVocabulary 5000 docs

/-- A record with a null `overview` but non-empty other text fields. -/
def rNull : RawMovie := ⟨7, "X", FieldVal.vnull, ["Action".data], [], [], []⟩

/-- A record with a non-string, non-null `overview`. -/
def rNum : RawMovie := ⟨7, "X", FieldVal.vnum 3, ["Action".data], [], [], []⟩

/-- Squared Euclidean norm of a real vector. -/
def normSqR (v : List ℝ) : ℝ := (v.map (fun x => x * x)).sum

/-- Modelled from the spec (§4.2): `faiss.normalize_L2`
(src/data_updater.py line 175) divides each row by its Euclidean norm and
leaves a zero row unchanged (the zero-vector-stays-zero rule); the FAISS
implementation is outside the repository.  The result lives in `ℝ` because
the norm of a rational vector is irrational in general. -/
noncomputable def normalize_L2 (v : Vec) : List ℝ :=
  if normSq v = 0 then v.map (fun x => (Rat.cast x : ℝ))
  else v.map (fun x => (Rat.cast x : ℝ) / Real.sqrt (Rat.cast (normSq v)))

example : st2.index.search [1, 0] 6 = [(0, 1), (1, 1)] := by
  norm_num [FaissIndex.search, st2, dot, hitLE, List.insertionSort,
    List.orderedInsert, List.enum, List.enumFrom]

example : (recommend st2 "B" 5).1 = ["B"] := by
  norm_num [recommend, recommendCore, st2, findTitlePositions,
    FaissIndex.reconstruct, FaissIndex.search, dot, hitLE, List.insertionSort,
    List.orderedInsert, List.enum, List.enumFrom, recLoop, iloc, List.filter]
  rfl

theorem search_length (idx : FaissIndex) (q : Vec) (k : Nat) :
    (idx.search q k).length = min k idx.vecs.length := by
  unfold FaissIndex.search
  rw [List.length_take, (List.perm_insertionSort hitLE _).length_eq,
    List.enum_length, List.length_map]

theorem search_pairwise (idx : FaissIndex) (q : Vec) (k : Nat) :
    (idx.search q k).Pairwise hitLE :=
  List.Pairwise.sublist (List.take_sublist _ _) (List.sorted_insertionSort hitLE _)

theorem search_nodup_fst (idx : FaissIndex) (q : Vec) (k : Nat) :
    ((idx.search q k).map Prod.fst).Nodup := by
  unfold FaissIndex.search
  rw [List.map_take]
  refine List.Nodup.sublist (List.take_sublist _ _) ?_
  exact (((List.perm_insertionSort hitLE _).map Prod.fst).nodup_iff).mpr
    (List.nodup_enum_map_fst _)

theorem mem_search_fst_lt (idx : FaissIndex) (q : Vec) (k : Nat) {i : Nat}
    (h : i ∈ (idx.search q k).map Prod.fst) : i < idx.vecs.length := by
  unfold FaissIndex.search at h
  rw [List.map_take] at h
  have h2 := List.mem_of_mem_take h
  have h3 := (((List.perm_insertionSort hitLE _).map Prod.fst).mem_iff).mp h2
  rcases List.mem_map.mp h3 with ⟨⟨j, s⟩, hmem, hj⟩
  have h4 := List.mk_mem_enum_iff_getElem?.mp hmem
  rcases List.getElem?_eq_some.mp h4 with ⟨hlt, _⟩
  rw [List.length_map] at hlt
  exact hj ▸ hlt

theorem mem_findTitlePositions {movies : List Movie} {t : String} {i : Nat} :
    i ∈ findTitlePositions movies t ↔
      ∃ m : Movie, movies[i]? = some m ∧ m.title = t := by
  unfold findTitlePositions
  constructor
  · intro h
    rcases List.mem_map.mp h with ⟨⟨j, m⟩, hmem, hj⟩
    rcases List.mem_filter.mp hmem with ⟨henum, hcond⟩
    refine ⟨m, hj ▸ List.mk_mem_enum_iff_getElem?.mp henum, ?_⟩
    simpa using hcond
  · rintro ⟨m, hget, ht⟩
    refine List.mem_map.mpr
      ⟨(i, m), List.mem_filter.mpr ⟨List.mk_mem_enum_iff_getElem?.mpr hget, ?_⟩, rfl⟩
    simpa using ht

theorem findTitlePositions_eq_nil {movies : List Movie} {t : String} :
    findTitlePositions movies t = [] ↔ ∀ m ∈ movies, m.title ≠ t := by
  rw [List.eq_nil_iff_forall_not_mem]
  constructor
  · intro h m hm ht
    rcases List.mem_iff_getElem.mp hm with ⟨i, hlt, hi⟩
    exact h i (mem_findTitlePositions.mpr ⟨m, by rw [List.getElem?_eq_getElem hlt, hi], ht⟩)
  · intro h i hi
    rcases mem_findTitlePositions.mp hi with ⟨m, hget, ht⟩
    rcases List.getElem?_eq_some.mp hget with ⟨hlt, hm⟩
    exact h m (hm ▸ List.getElem_mem hlt) ht

theorem recLoop_ok_lengths {st : AppState} {idxs : List Nat}
    {ts : List String} {ps : List (Option String)}
    (h : recLoop st idxs = Except.ok (ts, ps)) :
    ts.length = idxs.length ∧ ps.length = idxs.length := by
  induction idxs generalizing ts ps with
  | nil =>
    simp only [recLoop, Except.ok.injEq, Prod.mk.injEq] at h
    rcases h with ⟨h1, h2⟩
    simp [← h1, ← h2]
  | cons i rest ih =>
    rw [recLoop] at h
    cases hi : iloc st.movies i with
    | error e => rw [hi] at h; exact absurd h (by simp)
    | ok m =>
      rw [hi] at h
      cases hr : recLoop st rest with
      | error e => rw [hr] at h; exact absurd h (by simp)
      | ok pr =>
        rw [hr] at h
        rcases pr with ⟨ts0, ps0⟩
        simp only [Except.ok.injEq, Prod.mk.injEq] at h
        rcases h with ⟨h1, h2⟩
        rcases ih hr with ⟨l1, l2⟩
        simp [← h1, ← h2, l1, l2]

theorem recLoop_ok_of_lt {st : AppState} {idxs : List Nat}
    (h : ∀ i ∈ idxs, i < st.movies.length) :
    ∃ ts ps, recLoop st idxs = Except.ok (ts, ps) := by
  induction idxs with
  | nil => exact ⟨[], [], rfl⟩
  | cons i rest ih =>
    rcases ih (fun j hj => h j (List.mem_cons_of_mem i hj)) with ⟨ts, ps, hr⟩
    have hlt : i < st.movies.length := h i (List.mem_cons_self i rest)
    have hm : iloc st.movies i = Except.ok st.movies[i] := by
      unfold iloc
      rw [List.getElem?_eq_getElem hlt]
    exact ⟨_, _, by rw [recLoop, hm, hr]⟩

theorem recLoop_titles_mem {st : AppState} {idxs : List Nat}
    {ts : List String} {ps : List (Option String)} {t : String}
    (h : recLoop st idxs = Except.ok (ts, ps)) (ht : t ∈ ts) :
    ∃ i ∈ idxs, ∃ m : Movie, st.movies[i]? = some m ∧ m.title = t := by
  induction idxs generalizing ts ps with
  | nil =>
    simp only [recLoop, Except.ok.injEq, Prod.mk.injEq] at h
    rw [← h.1] at ht
    exact absurd ht (List.not_mem_nil t)
  | cons i rest ih =>
    rw [recLoop] at h
    cases hi : iloc st.movies i with
    | error e => rw [hi] at h; exact absurd h (by simp)
    | ok m =>
      rw [hi] at h
      cases hr : recLoop st rest with
      | error e => rw [hr] at h; exact absurd h (by simp)
      | ok pr =>
        rw [hr] at h
        rcases pr with ⟨ts0, ps0⟩
        simp only [Except.ok.injEq, Prod.mk.injEq] at h
        rw [← h.1] at ht
        rcases List.mem_cons.mp ht with h1 | h1
        · refine ⟨i, List.mem_cons_self i rest, m, ?_, h1.symm⟩
          unfold iloc at hi
          cases hg : st.movies[i]? with
          | none => rw [hg] at hi; exact absurd hi (by simp)
          | some m0 =>
            rw [hg] at hi
            simp only [Except.ok.injEq] at hi
            rw [hi]
        · rcases ih hr h1 with ⟨j, hj, m0, hg, htj⟩
          exact ⟨j, List.mem_cons_of_mem i hj, m0, hg, htj⟩

theorem recommendCore_eq_of_notfound {st : AppState} {t : String} {k : Nat}
    (hf : findTitlePositions st.movies t = []) :
    recommendCore st t k = Except.ok ([], []) := by
  unfold recommendCore
  rw [hf]

theorem recommendCore_eq_of_found {st : AppState} {t : String} {k mi : Nat}
    {rest0 : List Nat} (hf : findTitlePositions st.movies t = mi :: rest0) :
    recommendCore st t k =
      match st.index.reconstruct mi with
      | Except.error e => Except.error e
      | Except.ok q =>
        recLoop st ((((st.index.search q (k + 1)).map Prod.fst).drop 1).take k) := by
  unfold recommendCore
  rw [hf]

theorem recommendCore_eq_of_found_ok {st : AppState} {t : String} {k mi : Nat}
    {rest0 : List Nat} {q : Vec}
    (hf : findTitlePositions st.movies t = mi :: rest0)
    (hq : st.index.reconstruct mi = Except.ok q) :
    recommendCore st t k =
      recLoop st ((((st.index.search q (k + 1)).map Prod.fst).drop 1).take k) := by
  rw [recommendCore_eq_of_found hf, hq]

theorem recommend_eq_of_ok {st : AppState} {t : String} {k : Nat}
    {r : List String × List (Option String)}
    (h : recommendCore st t k = Except.ok r) : recommend st t k = r := by
  unfold recommend
  rw [h]

theorem recommend_eq_of_error {st : AppState} {t : String} {k : Nat} {e : String}
    (h : recommendCore st t k = Except.error e) : recommend st t k = ([], []) := by
  unfold recommend
  rw [h]

/-- C10: for every call `recommend(movie, movies_df, index, k)`, the two
returned lists (recommended titles and recommended posters) have equal
length, and that length is at most `k`. -/
theorem recommend_titles_posters_balanced (st : AppState) (movie : String) (k : Nat) :
    (recommend st movie k).1.length = (recommend st movie k).2.length ∧
    (recommend st movie k).1.length ≤ k := by
  cases hc : recommendCore st movie k with
  | error e => rw [recommend_eq_of_error hc]; exact ⟨rfl, Nat.zero_le k⟩
  | ok r =>
    rcases r with ⟨ts, ps⟩
    rw [recommend_eq_of_ok hc]
    cases hf : findTitlePositions st.movies movie with
    | nil =>
      rw [recommendCore_eq_of_notfound hf] at hc
      simp only [Except.ok.injEq, Prod.mk.injEq] at hc
      rw [← hc.1, ← hc.2]
      exact ⟨rfl, Nat.zero_le k⟩
    | cons mi rest0 =>
      rw [recommendCore_eq_of_found hf] at hc
      cases hq : st.index.reconstruct mi with
      | error e => rw [hq] at hc; exact absurd hc (by simp)
      | ok q =>
        rw [hq] at hc
        rcases recLoop_ok_lengths hc with ⟨l1, l2⟩
        refine ⟨by rw [l1, l2], ?_⟩
        rw [l1]
        exact List.length_take_le _ _

/-- C8: for every title not present in the corpus index map,
`recommend(title, k)` returns an empty result (two empty lists) and the
body raises no error (`recommendCore` succeeds). -/
theorem recommend_unknown_title (st : AppState) (t : String) (k : Nat)
    (h : ∀ m ∈ st.movies, m.title ≠ t) :
    recommendCore st t k = Except.ok ([], []) ∧ recommend st t k = ([], []) := by
  have hf : findTitlePositions st.movies t = [] := findTitlePositions_eq_nil.mpr h
  have h1 := recommendCore_eq_of_notfound (k := k) hf
  exact ⟨h1, recommend_eq_of_ok h1⟩

/-- C8 witness: the three-movie corpus contains no title "Z"; recommending
"Z" yields the empty result without an error. -/
theorem recommend_unknown_title_witness :
    recommendCore st3 "Z" 5 = Except.ok ([], []) ∧
    recommend st3 "Z" 5 = ([], []) :=
  recommend_unknown_title st3 "Z" 5 (by decide)

/-- C4 counterexample: on a desynchronised state (two data-frame rows,
one-vector index) the resolved row position 1 is absent from the index, the
body raises an out-of-range `reconstruct` error, and `recommend` swallows it
and returns the same empty result as an unknown title — the error is
silently coerced into a normal empty result, contradicting the claim that
internal inconsistencies are propagated as fatal errors. -/
theorem internal_error_coerced_counterexample :
    recommendCore stBad "B" 5 = Except.error "reconstruct key out of range" ∧
    recommend stBad "B" 5 = ([], []) ∧
    recommend stBad "B" 5 = recommend stBad "Z" 5 :=
  ⟨rfl, rfl, rfl⟩

/-- C4 (amended): an internal inconsistency during recommendation (e.g. a
resolved row position absent from the index) raises an internal error which
the enclosing `try/except` of `recommend` catches and coerces into the
normal empty result `([], [])` — it is not propagated as a fatal error. -/
theorem internal_error_coerced (st : AppState) (t : String) (k : Nat) (e : String)
    (h : recommendCore st t k = Except.error e) :
    recommend st t k = ([], []) := by
  unfold recommend
  rw [h]

/-- C4 witness: the amended claim at the desynchronised state. -/
theorem internal_error_coerced_witness :
    recommendCore stBad "B" 5 = Except.error "reconstruct key out of range" ∧
    recommend stBad "B" 5 = ([], []) :=
  ⟨rfl, internal_error_coerced stBad "B" 5 "reconstruct key out of range" rfl⟩

/-- C3: `search` returns at most `N` hits for a corpus of `N` stored
vectors (for any `k`, in particular `k > N`), and `recommend` on an aligned
state of `N` movies returns at most `N - 1` recommendations. -/
theorem search_recommend_capped (idx : FaissIndex) (q : Vec) (k : Nat)
    (st : AppState) (movie : String) (kr : Nat)
    (halign : st.index.vecs.length = st.movies.length) :
    (idx.search q k).length ≤ idx.vecs.length ∧
    (recommend st movie kr).1.length ≤ st.movies.length - 1 := by
  refine ⟨by rw [search_length]; exact Nat.min_le_right _ _, ?_⟩
  cases hc : recommendCore st movie kr with
  | error e => rw [recommend_eq_of_error hc]; exact Nat.zero_le _
  | ok r =>
    rcases r with ⟨ts, ps⟩
    rw [recommend_eq_of_ok hc]
    cases hf : findTitlePositions st.movies movie with
    | nil =>
      rw [recommendCore_eq_of_notfound hf] at hc
      simp only [Except.ok.injEq, Prod.mk.injEq] at hc
      rw [← hc.1]
      exact Nat.zero_le _
    | cons mi rest0 =>
      rw [recommendCore_eq_of_found hf] at hc
      cases hq : st.index.reconstruct mi with
      | error e => rw [hq] at hc; exact absurd hc (by simp)
      | ok q =>
        rw [hq] at hc
        rcases recLoop_ok_lengths hc with ⟨l1, _⟩
        rw [l1, List.length_take, List.length_drop, List.length_map, search_length,
          halign]
        refine le_trans (Nat.min_le_right _ _) ?_
        exact Nat.sub_le_sub_right (Nat.min_le_right _ _) 1

/-- C3 witness: on the three-movie corpus with `k = 10 > 3`, `search`
returns 3 hits (at most `N`), and `recommend("A", 10)` returns exactly two
recommendations and no error. -/
theorem search_recommend_capped_witness :
    st3.index.vecs.length = st3.movies.length ∧
    (st3.index.search [1, 1, 0, 0] 10).length ≤ st3.index.vecs.length ∧
    (recommend st3 "A" 10).1.length ≤ st3.movies.length - 1 ∧
    (recommend st3 "A" 10).1 = ["B", "C"] := by
  rcases search_recommend_capped st3.index [1, 1, 0, 0] 10 st3 "A" 10 rfl with ⟨h1, h2⟩
  refine ⟨rfl, h1, h2, ?_⟩
  norm_num [recommend, recommendCore, st3, findTitlePositions,
    FaissIndex.reconstruct, FaissIndex.search, dot, hitLE, List.insertionSort,
    List.orderedInsert, List.enum, List.enumFrom, recLoop, iloc, List.filter]
  rfl

/-- C1 counterexample: in the two-movie corpus `st2` both rows store the
identical vector (identical tag strings).  Querying "B" resolves to row 1;
under the index's tie order the first hit is row 0, which the code discards,
and row 1 — the query movie itself — is returned: "B" is among the results
of `recommend("B", 5)`. -/
theorem recommend_returns_query_title_counterexample :
    "B" ∈ (recommend st2 "B" 5).1 := by
  have h : (recommend st2 "B" 5).1 = ["B"] := by
    norm_num [recommend, recommendCore, st2, findTitlePositions,
      FaissIndex.reconstruct, FaissIndex.search, dot, hitLE, List.insertionSort,
      List.orderedInsert, List.enum, List.enumFrom, recLoop, iloc, List.filter]
    rfl
  rw [h]
  exact List.mem_singleton_self "B"

/-- C1 (amended): for a title occurring exactly once in the corpus and
whose own row is the first hit of the `k+1`-neighbour search (as happens
whenever no other row stores an identical vector), `recommend(title, k)`
never returns the queried title among its results. -/
theorem recommend_excludes_query_title (st : AppState) (t : String) (k mi : Nat)
    (q : Vec) (huniq : findTitlePositions st.movies t = [mi])
    (hq : st.index.reconstruct mi = Except.ok q)
    (hself : ((st.index.search q (k + 1)).map Prod.fst).head? = some mi) :
    t ∉ (recommend st t k).1 := by
  cases hc : recommendCore st t k with
  | error e => rw [recommend_eq_of_error hc]; exact List.not_mem_nil t
  | ok r =>
    rcases r with ⟨ts, ps⟩
    rw [recommend_eq_of_ok hc]
    intro ht
    rw [recommendCore_eq_of_found_ok huniq hq] at hc
    cases hs : (st.index.search q (k + 1)).map Prod.fst with
    | nil => rw [hs] at hself; exact absurd hself (by simp)
    | cons j rest =>
      rw [hs] at hself
      simp only [List.head?_cons, Option.some.injEq] at hself
      have hnodup := search_nodup_fst st.index q (k + 1)
      rw [hs] at hnodup
      have hmi_notin : mi ∉ rest := by
        rw [← hself]
        exact (List.nodup_cons.mp hnodup).1
      rw [hs] at hc
      simp only [List.drop_succ_cons, List.drop_zero] at hc
      rcases recLoop_titles_mem hc ht with ⟨i, hi, m, hg, htm⟩
      have himem : i ∈ findTitlePositions st.movies t :=
        mem_findTitlePositions.mpr ⟨m, hg, htm⟩
      rw [huniq] at himem
      have hieq : i = mi := by simpa using himem
      rw [hieq] at hi
      exact hmi_notin (List.mem_of_mem_take hi)

/-- C1 witness: the amended claim at the three-movie corpus, querying "A"
with `k = 1`: "A" resolves uniquely to row 0, row 0 is the top hit of the
search with its own vector, and "A" is not among the results. -/
theorem recommend_excludes_query_title_witness :
    findTitlePositions st3.movies "A" = [0] ∧
    st3.index.reconstruct 0 = Except.ok [1, 1, 0, 0] ∧
    ((st3.index.search [1, 1, 0, 0] 2).map Prod.fst).head? = some 0 ∧
    "A" ∉ (recommend st3 "A" 1).1 := by
  refine ⟨by decide, rfl, ?_, ?_⟩
  · norm_num [FaissIndex.search, st3, dot, hitLE, List.insertionSort,
      List.orderedInsert, List.enum, List.enumFrom]
  · exact recommend_excludes_query_title st3 "A" 1 0 [1, 1, 0, 0] (by decide) rfl
      (by norm_num [FaissIndex.search, st3, dot, hitLE, List.insertionSort,
        List.orderedInsert, List.enum, List.enumFrom])

/-- C2 counterexample: in `st2` the query "B" resolves to row 1, but the
first hit of the `k+1`-neighbour search is row 0 (an identical-vector tie,
reordered ahead of the self-match).  The claim says the first hit is
discarded only when it is the query's own row; the code nevertheless
discards row 0 — title "A" is missing from the results and the self row
"B" is returned instead. -/
theorem first_hit_discard_counterexample :
    findTitlePositions st2.movies "B" = [1] ∧
    st2.index.reconstruct 1 = Except.ok [1, 0] ∧
    (st2.index.search [1, 0] 2).head? = some (0, 1) ∧
    (0 : Nat) ≠ 1 ∧
    (recommend st2 "B" 1).1 = ["B"] := by
  refine ⟨by decide, rfl, ?_, by decide, ?_⟩
  · norm_num [FaissIndex.search, st2, dot, hitLE, List.insertionSort,
      List.orderedInsert, List.enum, List.enumFrom]
  · norm_num [recommend, recommendCore, st2, findTitlePositions,
      FaissIndex.reconstruct, FaissIndex.search, dot, hitLE, List.insertionSort,
      List.orderedInsert, List.enum, List.enumFrom, recLoop, iloc, List.filter]
    rfl

/-- C2 (amended): after searching for `k+1` nearest neighbours, the first
hit of the search result is always discarded, regardless of whether it
corresponds to the query movie's own row position: whatever row `j` heads
the hit list, the results are built from the remaining hits only, and `j`
is not among their row positions. -/
theorem first_hit_always_discarded (st : AppState) (t : String) (k mi : Nat)
    (q : Vec) (j : Nat) (s : ℚ) (hrest : List (Nat × ℚ)) (rest0 : List Nat)
    (hf : findTitlePositions st.movies t = mi :: rest0)
    (hq : st.index.reconstruct mi = Except.ok q)
    (hs : st.index.search q (k + 1) = (j, s) :: hrest) :
    recommendCore st t k = recLoop st ((hrest.map Prod.fst).take k) ∧
    j ∉ hrest.map Prod.fst := by
  constructor
  · rw [recommendCore_eq_of_found_ok hf hq, hs]
    simp only [List.map_cons, List.drop_succ_cons, List.drop_zero]
  · have hnodup := search_nodup_fst st.index q (k + 1)
    rw [hs, List.map_cons] at hnodup
    exact (List.nodup_cons.mp hnodup).1

/-- C2 witness: the amended claim at `st2`, querying "B" with `k = 1`: the
first hit is row 0 (not the query row 1) and it is discarded all the same. -/
theorem first_hit_always_discarded_witness :
    findTitlePositions st2.movies "B" = [1] ∧
    recommendCore st2 "B" 1 = recLoop st2 (([(1, (1 : ℚ))].map Prod.fst).take 1) ∧
    0 ∉ [(1, (1 : ℚ))].map Prod.fst := by
  have hs : st2.index.search [1, 0] 2 = (0, 1) :: [(1, 1)] := by
    norm_num [FaissIndex.search, st2, dot, hitLE, List.insertionSort,
      List.orderedInsert, List.enum, List.enumFrom]
  have h := first_hit_always_discarded st2 "B" 1 1 [1, 0] 0 1 [(1, 1)] []
    (by decide) rfl hs
  exact ⟨by decide, h.1, h.2⟩

/-- C5: for every query vector and every `k`, the hits of `search(v, k)`
are sorted by non-increasing inner-product score, and among hits with equal
scores the row positions appear in strictly ascending order. -/
theorem search_sorted_deterministic (idx : FaissIndex) (q : Vec) (k : Nat) :
    (idx.search q k).Pairwise (fun a b => b.2 ≤ a.2 ∧ (a.2 = b.2 → a.1 < b.1)) := by
  have h1 := search_pairwise idx q k
  have h2 : (idx.search q k).Pairwise (fun a b => a.1 ≠ b.1) := by
    have h := search_nodup_fst idx q k
    rwa [List.Nodup, List.pairwise_map] at h
  refine (h1.and h2).imp ?_
  rintro a b ⟨hle, hne⟩
  rcases hle with hlt | ⟨heq, hle2⟩
  · exact ⟨le_of_lt hlt, fun he => absurd (he ▸ hlt) (lt_irrefl _)⟩
  · exact ⟨le_of_eq heq.symm, fun _ => lt_of_le_of_ne hle2 hne⟩

/-- C6: fitting the vectorizer on a corpus of tag strings learns a
vocabulary of at most 5000 terms, none of which is a stop word, ordered by
descending document frequency. -/
theorem fit_vocabulary_capped (docs : List PyStr) :
    (fitTags docs).length ≤ 5000 ∧
    (∀ t ∈ fitTags docs, t ∉ englishStopWords) ∧
    (fitTags docs).Pairwise (fun a b => docFreq docs b ≤ docFreq docs a) := by
  unfold fitTags fitVocabulary
  refine ⟨List.length_take_le _ _, ?_, ?_⟩
  · intro t ht hmem
    have h1 := List.mem_of_mem_take ht
    have h2 := ((List.perm_insertionSort (dfGE docs) _).mem_iff).mp h1
    rw [List.mem_dedup] at h2
    rcases List.mem_flatten.mp h2 with ⟨terms, hterms, htin⟩
    rcases List.mem_map.mp hterms with ⟨d, _, hdt⟩
    rw [← hdt] at htin
    unfold docTerms at htin
    rw [List.mem_dedup] at htin
    rcases List.mem_filter.mp htin with ⟨_, hcond⟩
    have hnot : t ∉ englishStopWords := by simpa using hcond
    exact hnot hmem
  · exact List.Pairwise.sublist (List.take_sublist _ _)
      (List.sorted_insertionSort (dfGE docs) _)

theorem normSq_nonneg (v : Vec) : 0 ≤ normSq v := by
  induction v with
  | nil => simp [normSq]
  | cons x xs ih =>
    unfold normSq at *
    simp only [List.map_cons, List.sum_cons]
    nlinarith [mul_self_nonneg x]

theorem normSq_eq_zero_iff (v : Vec) : normSq v = 0 ↔ ∀ x ∈ v, x = 0 := by
  induction v with
  | nil => simp [normSq]
  | cons x xs ih =>
    unfold normSq at *
    simp only [List.map_cons, List.sum_cons, List.mem_cons]
    constructor
    · intro h
      have hx : 0 ≤ x * x := mul_self_nonneg x
      have hxs : 0 ≤ (xs.map (fun x => x * x)).sum := normSq_nonneg xs
      have hx0 : x * x = 0 := by nlinarith
      have hxs0 : (xs.map (fun x => x * x)).sum = 0 := by nlinarith
      intro y hy
      rcases hy with hy | hy
      · rw [hy]; nlinarith
      · exact ih.mp hxs0 y hy
    · intro h
      have hx : x = 0 := h x (Or.inl rfl)
      have hxs : (xs.map (fun x => x * x)).sum = 0 :=
        ih.mpr (fun y hy => h y (Or.inr hy))
      rw [hx, hxs]
      ring

theorem normSqR_map_div (v : Vec) (c : ℝ) :
    normSqR (v.map (fun x => (Rat.cast x : ℝ) / c)) =
      (Rat.cast (normSq v) : ℝ) / (c * c) := by
  induction v with
  | nil => simp [normSqR, normSq]
  | cons x xs ih =>
    simp only [normSqR, normSq, List.map_cons, List.sum_cons] at ih ⊢
    rw [ih]
    push_cast
    rw [div_mul_div_comm, div_add_div_same]

/-- C7: after L2 row-normalisation, every row either has squared Euclidean
norm exactly 1, or the original row was the zero vector and the normalised
row is that same zero vector (no NaN, no division by zero — the model is
total). -/
theorem normalize_L2_unit_or_zero (v : Vec) :
    (normSq v ≠ 0 ∧ normSqR (normalize_L2 v) = 1) ∨
    (normSq v = 0 ∧ normalize_L2 v = v.map (fun x => (Rat.cast x : ℝ)) ∧
      ∀ x ∈ normalize_L2 v, x = 0) := by
  by_cases h : normSq v = 0
  · right
    refine ⟨h, by unfold normalize_L2; rw [if_pos h], ?_⟩
    unfold normalize_L2
    rw [if_pos h]
    intro x hx
    rcases List.mem_map.mp hx with ⟨y, hy, hxy⟩
    have hy0 : y = 0 := (normSq_eq_zero_iff v).mp h y hy
    rw [← hxy, hy0]
    norm_num
  · left
    refine ⟨h, ?_⟩
    unfold normalize_L2
    rw [if_neg h, normSqR_map_div]
    have hpos : (0 : ℝ) < ((normSq v : ℚ) : ℝ) := by
      have h1 := normSq_nonneg v
      have h2 : (0 : ℚ) < normSq v := lt_of_le_of_ne h1 (Ne.symm h)
      exact_mod_cast h2
    rw [Real.mul_self_sqrt (le_of_lt hpos)]
    exact div_self (ne_of_gt hpos)

/-- C9 counterexample: a record whose `overview` is missing (null) is not
given an empty overview contribution — `df.dropna()` removes it from the
corpus entirely, so `preprocess_data` emits no row at all for it, not the
row with tags "action" built from its remaining fields that the claim
implies. -/
theorem preprocess_missing_overview_counterexample :
    preprocess_data id [rNull] = [] ∧
    preprocess_data id [rNull] ≠ [⟨7, "X", "action".data⟩] := by
  exact ⟨rfl, by decide⟩

/-- C9 (amended): `preprocess_data` never raises for malformed text: a
record whose `overview` is present but not a string contributes an empty
token sequence for the overview (its tag string is built from the remaining
fields alone), while a record whose `overview` is missing (null) is removed
entirely by the `dropna` step. -/
theorem preprocess_malformed_overview (ps : PyStr → PyStr) (r : RawMovie)
    (hnotstr : ∀ s, r.overview ≠ FieldVal.vstr s) :
    (r.overview = FieldVal.vnull → preprocess_data ps [r] = []) ∧
    (r.overview ≠ FieldVal.vnull →
      preprocess_data ps [r] = [⟨r.movie_id, r.title, tagsOf ps r⟩] ∧
      overviewTokens r.overview = []) := by
  constructor
  · intro hnull
    simp [preprocess_data, hasNull, hnull]
  · intro hnn
    constructor
    · have hfalse : (r.overview == FieldVal.vnull) = false := by
        simpa using hnn
      simp [preprocess_data, hasNull, hfalse]
    · cases ho : r.overview with
      | vstr s => exact absurd ho (hnotstr s)
      | vnull => exact absurd ho hnn
      | vnum n => rfl

/-- C9 witness: the amended claim at the record `rNum`, whose `overview` is
the number 3: it survives preprocessing with tags built from its genres
only ("action" after lower-casing), and its overview contributes no
tokens. -/
theorem preprocess_malformed_overview_witness :
    preprocess_data id [rNum] = [⟨7, "X", "action".data⟩] ∧
    overviewTokens rNum.overview = [] := by
  have hstr : ∀ s, rNum.overview ≠ FieldVal.vstr s := by
    intro s hcon
    simp [rNum] at hcon
  have h := (preprocess_malformed_overview id rNum hstr).2 (by simp [rNum])
  refine ⟨?_, h.2⟩
  rw [h.1]
  rfl

end ReelDeal
